import Mathlib

/-!
Shallow embedding of the parts-sales XLSX importer (`importPartsSalesXlsx` and its
helpers `normalizeHeader`, `buildHeaderMap`, `CanonicalRowSchema`) from
`apps/web/src/app/api` (importer module). The spreadsheet library and the
database are external collaborators: the importer is modelled from the 2-D array
of cells produced by `sheet_to_json` onward, and the database effects (created
batch, staging rows, canonical upserts) are returned explicitly as values.
-/

namespace DMS

/-- A spreadsheet cell as produced by `sheet_to_json` with `defval: ""`: either a
string or a number. The importer only ever stringifies cells or stores them
verbatim. -/
inductive Cell where
  | str : String → Cell
  | num : Int → Cell
deriving DecidableEq, Repr

/-- JS `String(x ?? "")` on a cell value. -/
def Cell.toStr : Cell → String
  | .str s => s
  | .num n => toString n

/-- JS `s.trim()` (whitespace per `Char.isWhitespace`). -/
def jsTrim (s : String) : String :=
  String.mk (((s.toList.dropWhile Char.isWhitespace).reverse.dropWhile
    Char.isWhitespace).reverse)

/-- `normalizeHeader`: trim, drop every whitespace character (the source replaces
whitespace runs by the empty string), and map the full-width colon to `:`. -/
def normalizeHeader (s : String) : String :=
  String.mk (((jsTrim s).toList.filter (fun c => !c.isWhitespace)).map
    (fun c => if c = '：' then ':' else c))

/-- The `headerAliases` table: canonical field name to accepted header spellings. -/
def headerAliases : List (String × List String) :=
  [("branchCode", ["據點", "廠別", "服務廠"]),
   ("checkoutNo", ["結帳單號", "結算單號"]),
   ("itemId", ["項目ID", "項目Id", "項次"]),
   ("workOrderNo", ["工單號", "工作單號", "工作單號碼"]),
   ("partNo", ["零件編號", "料號"]),
   ("partName", ["零件名稱", "品名"]),
   ("qty", ["銷售數量", "數量", "數量(銷售)"]),
   ("saleAmount", ["實際售價", "銷售金額", "售價"]),
   ("costAmount", ["成本總價", "成本金額", "成本"]),
   ("advisorName", ["接待人員", "服務顧問", "顧問"]),
   ("salesName", ["銷售人員", "零件銷售", "銷售"])]

/-- `Object.values(headerAliases).flat().map(normalizeHeader)`. -/
def allAliasNorms : List String :=
  ((headerAliases.map Prod.snd).flatten).map normalizeHeader

/-- The result of `buildHeaderMap`. -/
structure HeaderMap where
  map : List (String × Nat)
  unknown : List String
  normHeaders : List String
deriving DecidableEq, Repr

/-- JS `Array.prototype.findIndex` (with `none` for `-1`). -/
def findIndex (p : String → Bool) : List String → Option Nat
  | [] => none
  | h :: t => if p h then some 0 else (findIndex p t).map (· + 1)

/-- `buildHeaderMap`: for each canonical field, `findIndex` of the first header
whose normalized form is among the field's normalized aliases; headers whose
normalized form matches no alias at all are collected as `unknown`. -/
def buildHeaderMap (headers : List String) : HeaderMap :=
  let normHeaders := headers.map normalizeHeader
  let map := headerAliases.filterMap (fun ca =>
    (findIndex (fun h => (ca.2.map normalizeHeader).contains h) normHeaders).map
      (fun i => (ca.1, i)))
  let unknown := headers.filter (fun h => !(allAliasNorms.contains (normalizeHeader h)))
  ⟨map, unknown, normHeaders⟩

/-- `requiredKeys` of the importer. -/
def requiredKeys : List String := ["branchCode", "checkoutNo", "itemId", "partNo"]

/-- `missingRequired`: the required keys with no resolved column. -/
def missingRequiredOf (hm : HeaderMap) : List String :=
  requiredKeys.filter (fun k => (hm.map.lookup k).isNone)

/-- Code-unit comparison of two character lists, as in the JS default sort. -/
def strLeChars : List Char → List Char → Bool
  | [], _ => true
  | _ :: _, [] => false
  | a :: as, b :: bs =>
    if a = b then strLeChars as bs
    else decide (a.toNat < b.toNat)

/-- JS string comparison `a <= b` (lexicographic on code units). -/
def strLe (a b : String) : Bool := strLeChars a.toList b.toList

/-- Insertion step of the sort used to model `Array.prototype.sort`. -/
def insertSorted (x : String) : List String → List String
  | [] => [x]
  | y :: ys => if strLe x y then x :: y :: ys else y :: insertSorted x ys

/-- `[...normHeaders].sort()`: lexicographic sort of the normalized headers. -/
def sortHeaders : List String → List String
  | [] => []
  | x :: xs => insertSorted x (sortHeaders xs)

/-- JSON escaping of a single character (quote, backslash and the common control
characters; other characters are emitted verbatim). -/
def jsonEscapeChar (c : Char) : List Char :=
  if c = '"' then ['\\', '"']
  else if c = '\\' then ['\\', '\\']
  else if c = '\n' then ['\\', 'n']
  else if c = '\r' then ['\\', 'r']
  else if c = '\t' then ['\\', 't']
  else [c]

/-- `JSON.stringify` of a string. -/
def jsonStr (s : String) : String :=
  String.mk ('"' :: ((s.toList.map jsonEscapeChar).flatten ++ ['"']))

/-- `JSON.stringify` of an array of strings. -/
def jsonArr (l : List String) : String :=
  "[" ++ String.intercalate "," (l.map jsonStr) ++ "]"

/-- Stand-in for the sha256 hex digest of node's crypto module (an external
collaborator): any deterministic function of the serialized string, since the
importer uses the digest only as a fingerprint. -/
def hashString (s : String) : Nat :=
  s.toList.foldl (fun h c => (h * 31 + c.toNat) % 2 ^ 64) 5381

/-- The header signature: hash of the deterministic serialization of the sorted
normalized headers. -/
def headerSignatureOf (normHeaders : List String) : Nat :=
  hashString (jsonArr (sortHeaders normHeaders))

/-- A parsed JS number represented exactly as `mantissa * 10 ^ exp10`. The
importer never computes with these values, it only stores them; `0` is `⟨0, 0⟩`. -/
structure JsNum where
  mantissa : Int
  exp10 : Int
deriving DecidableEq, Repr

/-- The JS number `0`, i.e. `Number("")`. -/
def JsNum.zero : JsNum := ⟨0, 0⟩

/-- Read a maximal run of decimal digits, returning their values and the rest. -/
def readDigits : List Char → List Nat × List Char
  | [] => ([], [])
  | c :: cs =>
    if c.isDigit then
      let p := readDigits cs
      ((c.toNat - '0'.toNat) :: p.1, p.2)
    else ([], c :: cs)

/-- The value of a digit run. -/
def digitsVal (ds : List Nat) : Nat := ds.foldl (fun a d => a * 10 + d) 0

/-- JS `Number` on a trimmed non-empty decimal literal: optional sign, integer
digits, optional fraction, optional exponent; `none` models `NaN`. Hexadecimal
and `Infinity` forms never occur in this pipeline and are not modelled. -/
def parseDecChars (cs : List Char) : Option JsNum :=
  let sp : Int × List Char :=
    match cs with
    | '+' :: t => (1, t)
    | '-' :: t => (-1, t)
    | t => (1, t)
  let ip := readDigits sp.2
  let fp : List Nat × List Char :=
    match ip.2 with
    | '.' :: t => readDigits t
    | t => ([], t)
  if ip.1.isEmpty && fp.1.isEmpty then none
  else
    let mant : Int := sp.1 * ((digitsVal ip.1 * 10 ^ fp.1.length + digitsVal fp.1 : Nat) : Int)
    let e0 : Int := -(fp.1.length : Int)
    match fp.2 with
    | [] => some ⟨mant, e0⟩
    | e :: t =>
      if e = 'e' || e = 'E' then
        let es : Int × List Char :=
          match t with
          | '+' :: t2 => (1, t2)
          | '-' :: t2 => (-1, t2)
          | t2 => (1, t2)
        let ed := readDigits es.2
        if ed.1.isEmpty || !ed.2.isEmpty then none
        else some ⟨mant, e0 + es.1 * (digitsVal ed.1 : Int)⟩
      else none

/-- `z.coerce.number()`'s coercion `Number(s)`: trim; the empty string is `0`;
otherwise parse, with `none` for `NaN` (which fails `z.number()`). -/
def jsNumber (s : String) : Option JsNum :=
  let t := jsTrim s
  if t == "" then some JsNum.zero else parseDecChars t.toList

/-- `r[idx]`, with `String(undefined ?? "") = ""` captured by the default cell. -/
def cellAt (r : List Cell) (idx : Nat) : Cell := r.getD idx (Cell.str "")

/-- `rawObj`: for each mapped canonical field, `String(r[idx] ?? "").trim()`. -/
def extractRaw (map : List (String × Nat)) (r : List Cell) : List (String × String) :=
  map.map (fun p => (p.1, jsTrim (cellAt r p.2).toStr))

/-- JS object assignment `obj[k] = v`: replaces the value at an existing key,
else appends the binding. -/
def objInsert (l : List (String × Cell)) (k : String) (v : Cell) : List (String × Cell) :=
  if l.any (fun p => p.1 == k) then
    l.map (fun p => if p.1 == k then (k, v) else p)
  else l ++ [(k, v)]

/-- Body of the `headers.forEach((h, idx) => ...)` building `unknownObj`. -/
def unknownStep (unknown : List String) (r : List Cell) (acc : List (String × Cell))
    (p : Nat × String) : List (String × Cell) :=
  if unknown.contains p.2 then
    let v := cellAt r p.1
    if jsTrim v.toStr == "" then acc else objInsert acc p.2 v
  else acc

/-- `unknownObj`: the original (uncoerced) cell of every unknown-header column
whose cell is non-blank, keyed by the original header text. -/
def buildUnknownObj (headers unknown : List String) (r : List Cell) : List (String × Cell) :=
  (List.enumFrom 0 headers).foldl (unknownStep unknown r) []

/-- The data accepted by `CanonicalRowSchema`. -/
structure CanonicalRow where
  branchCode : String
  checkoutNo : String
  itemId : String
  partNo : String
  workOrderNo : Option String
  partName : Option String
  qty : Option JsNum
  saleAmount : Option JsNum
  costAmount : Option JsNum
  advisorName : Option String
  salesName : Option String
deriving DecidableEq, Repr

/-- `z.string().min(1)` at key `k`: the key must be present with a non-empty value. -/
def reqString (o : List (String × String)) (k : String) : Option String :=
  match o.lookup k with
  | some s => if s.length ≥ 1 then some s else none
  | none => none

/-- `z.coerce.number().optional()` at key `k`: an absent key is fine; a present
value must coerce to a number. -/
def optCoerceNum (o : List (String × String)) (k : String) : Option (Option JsNum) :=
  match o.lookup k with
  | none => some none
  | some s =>
    match jsNumber s with
    | some q => some (some q)
    | none => none

/-- `CanonicalRowSchema.safeParse`: succeeds exactly when every field check does.
Optional string fields accept any present string and absence alike. -/
def safeParse (o : List (String × String)) : Option CanonicalRow :=
  match reqString o "branchCode", reqString o "checkoutNo", reqString o "itemId",
    reqString o "partNo", optCoerceNum o "qty", optCoerceNum o "saleAmount",
    optCoerceNum o "costAmount" with
  | some bc, some cn, some ii, some pn, some q, some sa, some ca =>
    some ⟨bc, cn, ii, pn, o.lookup "workOrderNo", o.lookup "partName", q, sa, ca,
      o.lookup "advisorName", o.lookup "salesName"⟩
  | _, _, _, _, _, _, _ => none

/-- `ImportStatus` of the `@ops/db` schema as used by the importer. -/
inductive ImportStatus where
  | STAGED
  | TRANSFORMED
deriving DecidableEq, Repr

/-- The `ImportBatch` record as finally persisted (creation sets the counters'
initial state and `STAGED`; the final update fills status and counters). -/
structure ImportBatch where
  reportType : String
  mappingVersion : String
  fileName : Option String
  headerSignature : Nat
  headerColumns : List String
  unknownColumns : List String
  status : ImportStatus
  stagedCount : Nat
  canonicalCount : Nat
  errorCount : Nat
deriving DecidableEq, Repr

/-- A persisted `StagingRow` (`unknown` omitted when the mapping is empty). -/
structure StagingRow where
  rowIndex : Nat
  data : List (String × String)
  unknown : Option (List (String × Cell))
deriving DecidableEq, Repr

/-- A persisted `PartsSalesLine` (canonical row). -/
structure PartsSalesLine where
  branchCode : String
  checkoutNo : String
  itemId : String
  workOrderNo : Option String
  workOrderKey : Option String
  partNo : String
  partName : Option String
  qty : Option JsNum
  saleAmount : Option JsNum
  costAmount : Option JsNum
  advisorName : Option String
  salesName : Option String
deriving DecidableEq, Repr

/-- `d.workOrderNo && d.branchCode ? branch_wo : undefined` (JS truthiness: the
empty string is falsy). -/
def workOrderKeyOf (d : CanonicalRow) : Option String :=
  match d.workOrderNo with
  | some wo =>
    if wo ≠ "" ∧ d.branchCode ≠ "" then some (d.branchCode ++ "_" ++ wo) else none
  | none => none

/-- The canonical line written for a validated row. -/
def toLine (d : CanonicalRow) : PartsSalesLine :=
  ⟨d.branchCode, d.checkoutNo, d.itemId, d.workOrderNo, workOrderKeyOf d, d.partNo,
    d.partName, d.qty, d.saleAmount, d.costAmount, d.advisorName, d.salesName⟩

/-- The business key `(branchCode, checkoutNo, itemId)` coincides. -/
def sameKey (a b : PartsSalesLine) : Bool :=
  a.branchCode == b.branchCode && a.checkoutNo == b.checkoutNo && a.itemId == b.itemId

/-- The prisma upsert keyed by `(branchCode, checkoutNo, itemId)`: update the
matching line in place, or create it. -/
def upsertLine (tbl : List PartsSalesLine) (x : PartsSalesLine) : List PartsSalesLine :=
  if tbl.any (fun y => sameKey y x) then
    tbl.map (fun y => if sameKey y x then x else y)
  else tbl ++ [x]

/-- The mutable state of the row loop: persisted staging rows, the canonical
table, and the three counters. -/
structure ImportState where
  staging : List StagingRow
  lines : List PartsSalesLine
  stagedCount : Nat
  canonicalCount : Nat
  errorCount : Nat
deriving DecidableEq, Repr

/-- The per-batch data the row loop reads: headers, header map, unknown headers,
missing required keys. -/
structure RowConfig where
  headers : List String
  map : List (String × Nat)
  unknown : List String
  missingRequired : List String
deriving DecidableEq, Repr

/-- `String(v ?? "").trim() === ""` for every cell of the row (an absent row is
modelled by the empty list, which is vacuously blank). -/
def rowIsBlank (r : List Cell) : Bool := r.all (fun v => jsTrim v.toStr == "")

/-- The staging row persisted for data row `i`. -/
def stagingRowOf (cfg : RowConfig) (i : Nat) (r : List Cell) : StagingRow :=
  let u := buildUnknownObj cfg.headers cfg.unknown r
  ⟨i, extractRaw cfg.map r, if u.isEmpty then none else some u⟩

/-- One iteration of the row loop: skip blank rows; stage the row; then the
required-columns check, then schema validation, then the canonical upsert. -/
def stepRow (cfg : RowConfig) (st : ImportState) (p : Nat × List Cell) : ImportState :=
  if rowIsBlank p.2 then st
  else
    let st1 : ImportState :=
      { st with staging := st.staging ++ [stagingRowOf cfg p.1 p.2],
                stagedCount := st.stagedCount + 1 }
    if !cfg.missingRequired.isEmpty then
      { st1 with errorCount := st1.errorCount + 1 }
    else
      match safeParse (extractRaw cfg.map p.2) with
      | none => { st1 with errorCount := st1.errorCount + 1 }
      | some d =>
        { st1 with lines := upsertLine st1.lines (toLine d),
                   canonicalCount := st1.canonicalCount + 1 }

/-- The value returned by `importPartsSalesXlsx`, together with the records the
call persisted (the database is modelled explicitly). -/
structure ImportResult where
  batch : ImportBatch
  staging : List StagingRow
  lines : List PartsSalesLine
  stagedCount : Nat
  canonicalCount : Nat
  errorCount : Nat
  missingRequired : List String
  unknownColumns : List String
deriving DecidableEq, Repr

/-- The message of the only hard failure. -/
def noDataMsg : String := "檔案看起來沒有資料列"

/-- `rows[0].map((x) => String(x ?? ""))`. -/
def headersOf (rows : List (List Cell)) : List String := (rows.headD []).map Cell.toStr

/-- The per-batch configuration the row loop reads, computed from the headers. -/
def rowConfigOf (headers : List String) : RowConfig :=
  ⟨headers, (buildHeaderMap headers).map, (buildHeaderMap headers).unknown,
    missingRequiredOf (buildHeaderMap headers)⟩

/-- The state after the row loop ran over data rows `1..` (1-based indices). -/
def finalState (cfg : RowConfig) (rows : List (List Cell)) : ImportState :=
  (List.enumFrom 1 (rows.drop 1)).foldl (stepRow cfg) ⟨[], [], 0, 0, 0⟩

/-- The result of a non-aborted import: the finalized batch (status `TRANSFORMED`
exactly when no row errored, with the final counters persisted), the persisted
rows, and the returned value's fields. -/
def importOkResult (fileName : Option String) (rows : List (List Cell)) : ImportResult :=
  let headers := headersOf rows
  let hm := buildHeaderMap headers
  let st := finalState (rowConfigOf headers) rows
  let batch : ImportBatch :=
    { reportType := "parts_sales", mappingVersion := "v1", fileName := fileName,
      headerSignature := headerSignatureOf hm.normHeaders, headerColumns := headers,
      unknownColumns := hm.unknown,
      status := if st.errorCount > 0 then ImportStatus.STAGED else ImportStatus.TRANSFORMED,
      stagedCount := st.stagedCount, canonicalCount := st.canonicalCount,
      errorCount := st.errorCount }
  ⟨batch, st.staging, st.lines, st.stagedCount, st.canonicalCount, st.errorCount,
    missingRequiredOf hm, hm.unknown⟩

/-- `importPartsSalesXlsx`, modelled from the `sheet_to_json` 2-D array onward:
fewer than two rows aborts with the no-data-rows error before anything is
persisted; otherwise the rows are processed and the batch finalized. -/
def importPartsSalesXlsx (fileName : Option String) (rows : List (List Cell)) :
    Except String ImportResult :=
  if rows.length < 2 then Except.error noDataMsg
  else Except.ok (importOkResult fileName rows)

/-- The key `k` is present in the raw object with a non-empty value. -/
def presentNonEmptyB (o : List (String × String)) (k : String) : Bool :=
  match o.lookup k with
  | some s => s != ""
  | none => false

/-- The key `k` is present with a non-empty value that does not coerce to a
number (`Number` yields `NaN`). -/
def nonNumericB (o : List (String × String)) (k : String) : Bool :=
  match o.lookup k with
  | some s => s != "" && (jsNumber s).isNone
  | none => false

/-- Placeholder result used only to extract the concrete result of a concrete
run in closed statements. -/
def emptyResult : ImportResult :=
  ⟨⟨"", "", none, 0, [], [], ImportStatus.STAGED, 0, 0, 0⟩, [], [], 0, 0, 0, [], []⟩

/-- The concrete result of a concrete import (`emptyResult` when it failed). -/
def okResultOf (e : Except String ImportResult) : ImportResult :=
  match e with
  | Except.ok r => r
  | Except.error _ => emptyResult

/-- A clean demo sheet: all required headers mapped, one valid data row. -/
def demoOk : List (List Cell) :=
  [[Cell.str "據點", Cell.str "結帳單號", Cell.str "項目ID", Cell.str "料號", Cell.str "數量"],
   [Cell.str "A01", Cell.str "C100", Cell.str "1", Cell.str "P-9", Cell.str "5"]]

/-- A demo sheet whose headers lack the required `項目ID` column. -/
def demoMissing : List (List Cell) :=
  [[Cell.str "據點", Cell.str "結帳單號", Cell.str "料號", Cell.str "數量"],
   [Cell.str "A01", Cell.str "C100", Cell.str "P-9", Cell.str "5"],
   [Cell.str " ", Cell.str "", Cell.str " ", Cell.str ""],
   [Cell.str "A02", Cell.str "C101", Cell.str "P-3", Cell.str "7"]]

/-- A demo sheet with a non-numeric quantity cell. -/
def demoBadQty : List (List Cell) :=
  [[Cell.str "據點", Cell.str "結帳單號", Cell.str "項目ID", Cell.str "料號", Cell.str "數量"],
   [Cell.str "A01", Cell.str "C100", Cell.str "1", Cell.str "P-9", Cell.str "abc"]]

/-- A demo sheet with two unknown columns carrying the same header text and two
distinct non-blank cells under them. -/
def demoDup : List (List Cell) :=
  [[Cell.str "X", Cell.str "X"], [Cell.str "a", Cell.str "b"]]

/-- A demo sheet whose mapped `數量` (qty) column holds a whitespace-only cell. -/
def demoBlankQty : List (List Cell) :=
  [[Cell.str "據點", Cell.str "結帳單號", Cell.str "項目ID", Cell.str "料號", Cell.str "數量"],
   [Cell.str "A01", Cell.str "C100", Cell.str "1", Cell.str "P-9", Cell.str "  "]]

/-- The data row of `demoBlankQty`. -/
def demoBlankQtyRow : List Cell :=
  [Cell.str "A01", Cell.str "C100", Cell.str "1", Cell.str "P-9", Cell.str "  "]

/-- The concrete value of a concrete successful parse (a placeholder otherwise). -/
def okParseOf (o : Option CanonicalRow) : CanonicalRow :=
  match o with
  | some d => d
  | none => ⟨"", "", "", "", none, none, none, none, none, none, none⟩

section Theorems

/-- A successful import is exactly the importer's non-abort branch on a sheet
with at least two rows. -/
theorem import_ok_iff (fn : Option String) (rows : List (List Cell)) (res : ImportResult) :
    importPartsSalesXlsx fn rows = Except.ok res ↔
      2 ≤ rows.length ∧ res = importOkResult fn rows := by
  unfold importPartsSalesXlsx
  split
  · next hlt => simp; omega
  · next hge =>
    constructor
    · intro h
      exact ⟨by omega, (Except.ok.injEq _ _).mp h.symm⟩
    · intro h
      rw [h.2]

/-- The loop body preserves `staged = canonical + error`. -/
theorem stepRow_counters (cfg : RowConfig) (st : ImportState) (p : Nat × List Cell)
    (h : st.stagedCount = st.canonicalCount + st.errorCount) :
    (stepRow cfg st p).stagedCount =
      (stepRow cfg st p).canonicalCount + (stepRow cfg st p).errorCount := by
  unfold stepRow
  split
  · exact h
  · dsimp only
    split
    · simp; omega
    · split <;> simp <;> omega

/-- The whole loop preserves `staged = canonical + error`. -/
theorem foldl_stepRow_counters (cfg : RowConfig) (l : List (Nat × List Cell))
    (st : ImportState) (h : st.stagedCount = st.canonicalCount + st.errorCount) :
    (l.foldl (stepRow cfg) st).stagedCount =
      (l.foldl (stepRow cfg) st).canonicalCount + (l.foldl (stepRow cfg) st).errorCount := by
  induction l generalizing st with
  | nil => exact h
  | cons p t ih => exact ih _ (stepRow_counters cfg st p h)

/-- C9: for every completed import, stagedCount = canonicalCount + errorCount. -/
theorem staged_eq_canonical_add_error (fn : Option String) (rows : List (List Cell))
    (res : ImportResult) (h : importPartsSalesXlsx fn rows = Except.ok res) :
    res.stagedCount = res.canonicalCount + res.errorCount := by
  obtain ⟨-, rfl⟩ := (import_ok_iff fn rows res).mp h
  simpa [importOkResult] using
    foldl_stepRow_counters (rowConfigOf (headersOf rows)) _ ⟨[], [], 0, 0, 0⟩ rfl

/-- C9 witness: the invariant on a concrete import. -/
theorem staged_eq_canonical_add_error_witness :
    importPartsSalesXlsx none demoMissing = Except.ok (okResultOf (importPartsSalesXlsx none demoMissing)) ∧
      (okResultOf (importPartsSalesXlsx none demoMissing)).stagedCount =
        (okResultOf (importPartsSalesXlsx none demoMissing)).canonicalCount +
          (okResultOf (importPartsSalesXlsx none demoMissing)).errorCount :=
  ⟨rfl, staged_eq_canonical_add_error none demoMissing
    (okResultOf (importPartsSalesXlsx none demoMissing)) rfl⟩

/-- C3: fewer than two rows aborts with the no-data-rows error (and, the error
carrying no records, nothing is persisted); with at least two rows the import
returns a result and the row loop itself never throws. -/
theorem no_data_rows_is_only_hard_failure (fn : Option String) (rows : List (List Cell)) :
    (rows.length < 2 → importPartsSalesXlsx fn rows = Except.error noDataMsg) ∧
      (2 ≤ rows.length → importPartsSalesXlsx fn rows = Except.ok (importOkResult fn rows)) := by
  constructor
  · intro h
    simp [importPartsSalesXlsx, h]
  · intro h
    simp [importPartsSalesXlsx, Nat.not_lt.mpr h]

/-- C3 witness: a header-only sheet aborts; a two-row sheet succeeds. -/
theorem no_data_rows_is_only_hard_failure_witness :
    importPartsSalesXlsx none [[Cell.str "據點"]] = Except.error noDataMsg ∧
      importPartsSalesXlsx none demoOk = Except.ok (importOkResult none demoOk) :=
  ⟨(no_data_rows_is_only_hard_failure none [[Cell.str "據點"]]).1 (by decide),
   (no_data_rows_is_only_hard_failure none demoOk).2 (by decide)⟩

/-- C6: the finalized batch is TRANSFORMED iff the error counter is zero,
otherwise it remains STAGED, and the final counters are persisted on it. -/
theorem finalize_status_and_counters (fn : Option String) (rows : List (List Cell))
    (res : ImportResult) (h : importPartsSalesXlsx fn rows = Except.ok res) :
    (res.batch.status = ImportStatus.TRANSFORMED ↔ res.errorCount = 0) ∧
      (res.errorCount ≠ 0 → res.batch.status = ImportStatus.STAGED) ∧
      res.batch.stagedCount = res.stagedCount ∧
      res.batch.canonicalCount = res.canonicalCount ∧
      res.batch.errorCount = res.errorCount := by
  obtain ⟨-, rfl⟩ := (import_ok_iff fn rows res).mp h
  rcases Nat.eq_zero_or_pos (finalState (rowConfigOf (headersOf rows)) rows).errorCount with
    h0 | hpos
  · simp [importOkResult, h0]
  · simp [importOkResult, gt_iff_lt, hpos, Nat.pos_iff_ne_zero.mp hpos]

/-- C6 witness: finalization on a concrete import with a row error. -/
theorem finalize_status_and_counters_witness :
    importPartsSalesXlsx none demoBadQty = Except.ok (okResultOf (importPartsSalesXlsx none demoBadQty)) ∧
      ((okResultOf (importPartsSalesXlsx none demoBadQty)).batch.status = ImportStatus.TRANSFORMED ↔
        (okResultOf (importPartsSalesXlsx none demoBadQty)).errorCount = 0) :=
  ⟨rfl, (finalize_status_and_counters none demoBadQty
    (okResultOf (importPartsSalesXlsx none demoBadQty)) rfl).1⟩

/-- C8: a row whose cells are all blank (or an absent row, modelled by the empty
row) is skipped by the loop body: no staging row, no counter changes. -/
theorem blank_row_skipped (cfg : RowConfig) (st : ImportState) (i : Nat) (r : List Cell)
    (h : rowIsBlank r = true) : stepRow cfg st (i, r) = st := by
  simp [stepRow, h]

/-- C8 witness: a whitespace-only row leaves the loop state unchanged. -/
theorem blank_row_skipped_witness :
    rowIsBlank [Cell.str " ", Cell.str ""] = true ∧
      stepRow (rowConfigOf ["據點", "備註"]) ⟨[], [], 0, 0, 0⟩ (1, [Cell.str " ", Cell.str ""]) =
        ⟨[], [], 0, 0, 0⟩ :=
  ⟨by decide, blank_row_skipped (rowConfigOf ["據點", "備註"]) ⟨[], [], 0, 0, 0⟩ 1 _ (by decide)⟩

/-- With a missing required column, the loop body keeps canonicalCount at 0, the
canonical table empty, and errorCount equal to stagedCount. -/
theorem stepRow_missing_required (cfg : RowConfig) (hm : cfg.missingRequired ≠ [])
    (st : ImportState) (p : Nat × List Cell)
    (h : st.canonicalCount = 0 ∧ st.errorCount = st.stagedCount ∧ st.lines = []) :
    (stepRow cfg st p).canonicalCount = 0 ∧
      (stepRow cfg st p).errorCount = (stepRow cfg st p).stagedCount ∧
      (stepRow cfg st p).lines = [] := by
  obtain ⟨h1, h2, h3⟩ := h
  unfold stepRow
  split
  · exact ⟨h1, h2, h3⟩
  · have hne : cfg.missingRequired.isEmpty = false := by
      cases hmr : cfg.missingRequired
      · exact absurd hmr hm
      · rfl
    simp [hne, h1, h2, h3]

/-- The loop preserves the missing-required invariant. -/
theorem foldl_stepRow_missing_required (cfg : RowConfig) (hm : cfg.missingRequired ≠ [])
    (l : List (Nat × List Cell)) (st : ImportState)
    (h : st.canonicalCount = 0 ∧ st.errorCount = st.stagedCount ∧ st.lines = []) :
    (l.foldl (stepRow cfg) st).canonicalCount = 0 ∧
      (l.foldl (stepRow cfg) st).errorCount = (l.foldl (stepRow cfg) st).stagedCount ∧
      (l.foldl (stepRow cfg) st).lines = [] := by
  induction l generalizing st with
  | nil => exact h
  | cons p t ih => exact ih _ (stepRow_missing_required cfg hm st p h)

/-- The loop body stages exactly the non-blank rows. -/
theorem stepRow_staged_count (cfg : RowConfig) (st : ImportState) (p : Nat × List Cell) :
    (stepRow cfg st p).stagedCount = st.stagedCount + (if rowIsBlank p.2 then 0 else 1) := by
  unfold stepRow
  split
  · next hbl => simp [hbl]
  · next hbl =>
    dsimp only
    split
    · rfl
    · split <;> rfl

/-- Over the whole loop, stagedCount counts the non-blank rows. -/
theorem foldl_stepRow_staged (cfg : RowConfig) (l : List (Nat × List Cell)) (st : ImportState) :
    (l.foldl (stepRow cfg) st).stagedCount =
      st.stagedCount + l.countP (fun p => !rowIsBlank p.2) := by
  induction l generalizing st with
  | nil => simp
  | cons p t ih =>
    rw [List.foldl_cons, ih, stepRow_staged_count, List.countP_cons]
    cases hb : rowIsBlank p.2 <;> simp [hb] <;> omega

/-- Enumerating the rows does not change which of them are non-blank. -/
theorem countP_enumFrom_rows (n : Nat) (l : List (List Cell)) :
    (List.enumFrom n l).countP (fun p => !rowIsBlank p.2) = l.countP (fun r => !rowIsBlank r) := by
  induction l generalizing n with
  | nil => rfl
  | cons r t ih => simp [List.enumFrom, List.countP_cons, ih]

/-- C1: if any required canonical header is unmapped, every non-blank data row is
staged (stagedCount counts exactly the non-blank rows) but none enters the
canonical table: canonicalCount is 0, the table stays empty, and errorCount
equals stagedCount. -/
theorem missing_required_all_rows_error (fn : Option String) (rows : List (List Cell))
    (res : ImportResult) (h : importPartsSalesXlsx fn rows = Except.ok res)
    (hm : res.missingRequired ≠ []) :
    res.canonicalCount = 0 ∧ res.errorCount = res.stagedCount ∧ res.lines = [] ∧
      res.stagedCount = (rows.drop 1).countP (fun r => !rowIsBlank r) := by
  obtain ⟨-, rfl⟩ := (import_ok_iff fn rows res).mp h
  have hm' : (rowConfigOf (headersOf rows)).missingRequired ≠ [] := hm
  have hinv := foldl_stepRow_missing_required (rowConfigOf (headersOf rows)) hm'
    (List.enumFrom 1 (rows.drop 1)) ⟨[], [], 0, 0, 0⟩ ⟨rfl, rfl, rfl⟩
  have hst := foldl_stepRow_staged (rowConfigOf (headersOf rows))
    (List.enumFrom 1 (rows.drop 1)) ⟨[], [], 0, 0, 0⟩
  exact ⟨hinv.1, hinv.2.1, hinv.2.2,
    by simpa [importOkResult, finalState, countP_enumFrom_rows] using hst⟩

/-- C1 witness: a sheet lacking the required item-id column stages both non-blank
rows, errors both, and yields no canonical rows. -/
theorem missing_required_all_rows_error_witness :
    (okResultOf (importPartsSalesXlsx none demoMissing)).missingRequired ≠ [] ∧
      (okResultOf (importPartsSalesXlsx none demoMissing)).canonicalCount = 0 ∧
      (okResultOf (importPartsSalesXlsx none demoMissing)).errorCount =
        (okResultOf (importPartsSalesXlsx none demoMissing)).stagedCount :=
  ⟨by decide,
    (missing_required_all_rows_error none demoMissing
      (okResultOf (importPartsSalesXlsx none demoMissing)) rfl (by decide)).1,
    (missing_required_all_rows_error none demoMissing
      (okResultOf (importPartsSalesXlsx none demoMissing)) rfl (by decide)).2.1⟩

/-- If any of the three numeric field checks fails, the whole schema parse fails. -/
theorem safeParse_none_of_nonnumeric (o : List (String × String))
    (h : optCoerceNum o "qty" = none ∨ optCoerceNum o "saleAmount" = none ∨
      optCoerceNum o "costAmount" = none) : safeParse o = none := by
  unfold safeParse
  rcases h with h | h | h
  · rw [h]
    cases reqString o "branchCode" <;> cases reqString o "checkoutNo" <;>
      cases reqString o "itemId" <;> cases reqString o "partNo" <;> rfl
  · rw [h]
    cases reqString o "branchCode" <;> cases reqString o "checkoutNo" <;>
      cases reqString o "itemId" <;> cases reqString o "partNo" <;>
      cases optCoerceNum o "qty" <;> rfl
  · rw [h]
    cases reqString o "branchCode" <;> cases reqString o "checkoutNo" <;>
      cases reqString o "itemId" <;> cases reqString o "partNo" <;>
      cases optCoerceNum o "qty" <;> cases optCoerceNum o "saleAmount" <;> rfl

/-- A present, non-empty, non-numeric value makes the numeric field check fail. -/
theorem optCoerceNum_none_of_nonNumericB (o : List (String × String)) (k : String)
    (h : nonNumericB o k = true) : optCoerceNum o k = none := by
  unfold nonNumericB at h
  unfold optCoerceNum
  cases hl : o.lookup k with
  | none => rw [hl] at h; cases h
  | some s =>
    rw [hl] at h
    dsimp only at h ⊢
    cases hj : jsNumber s with
    | none => rfl
    | some q => rw [hj] at h; simp at h

/-- C5: a non-blank row with all required fields present and non-empty whose
qty, saleAmount or costAmount extract is non-empty but does not parse as a
number fails validation: it is staged, the canonical table and counter are
untouched, and the error counter increments by exactly one. -/
theorem nonnumeric_value_fails_row (cfg : RowConfig) (st : ImportState) (i : Nat)
    (r : List Cell) (hbl : rowIsBlank r = false) (hmr : cfg.missingRequired = [])
    (hreq : ∀ k ∈ requiredKeys, presentNonEmptyB (extractRaw cfg.map r) k = true)
    (hnum : (nonNumericB (extractRaw cfg.map r) "qty" ||
      (nonNumericB (extractRaw cfg.map r) "saleAmount" ||
        nonNumericB (extractRaw cfg.map r) "costAmount")) = true) :
    (stepRow cfg st (i, r)).staging = st.staging ++ [stagingRowOf cfg i r] ∧
      (stepRow cfg st (i, r)).stagedCount = st.stagedCount + 1 ∧
      (stepRow cfg st (i, r)).lines = st.lines ∧
      (stepRow cfg st (i, r)).canonicalCount = st.canonicalCount ∧
      (stepRow cfg st (i, r)).errorCount = st.errorCount + 1 := by
  have hparse : safeParse (extractRaw cfg.map r) = none := by
    apply safeParse_none_of_nonnumeric
    simp only [Bool.or_eq_true] at hnum
    rcases hnum with h | h | h
    · exact Or.inl (optCoerceNum_none_of_nonNumericB _ _ h)
    · exact Or.inr (Or.inl (optCoerceNum_none_of_nonNumericB _ _ h))
    · exact Or.inr (Or.inr (optCoerceNum_none_of_nonNumericB _ _ h))
  simp [stepRow, hbl, hmr, hparse]

/-- C5 witness: the row with quantity "abc" is staged and errors exactly once. -/
theorem nonnumeric_value_fails_row_witness :
    nonNumericB (extractRaw (rowConfigOf (headersOf demoBadQty)).map
      [Cell.str "A01", Cell.str "C100", Cell.str "1", Cell.str "P-9", Cell.str "abc"])
        "qty" = true ∧
    (stepRow (rowConfigOf (headersOf demoBadQty)) ⟨[], [], 0, 0, 0⟩
      (1, [Cell.str "A01", Cell.str "C100", Cell.str "1", Cell.str "P-9", Cell.str "abc"])).errorCount
      = 0 + 1 :=
  ⟨by decide,
    (nonnumeric_value_fails_row (rowConfigOf (headersOf demoBadQty)) ⟨[], [], 0, 0, 0⟩ 1
      [Cell.str "A01", Cell.str "C100", Cell.str "1", Cell.str "P-9", Cell.str "abc"]
      (by decide) (by decide) (by decide) (by decide)).2.2.2.2⟩

/-- Looking a canonical field up in the raw object yields the trimmed string of
the mapped cell. -/
theorem lookup_extractRaw (m : List (String × Nat)) (r : List Cell) (k : String) :
    (extractRaw m r).lookup k = (m.lookup k).map (fun i => jsTrim (cellAt r i).toStr) := by
  induction m with
  | nil => rfl
  | cons p t ih =>
    unfold extractRaw at ih ⊢
    simp only [List.map_cons, List.lookup]
    cases h : (k == p.1) <;> simp [h, ih]

/-- A successful schema parse carries exactly the three numeric field checks'
results. -/
theorem safeParse_num_fields (o : List (String × String)) (d : CanonicalRow)
    (h : safeParse o = some d) :
    optCoerceNum o "qty" = some d.qty ∧ optCoerceNum o "saleAmount" = some d.saleAmount ∧
      optCoerceNum o "costAmount" = some d.costAmount := by
  unfold safeParse at h
  split at h
  · next bc cn ii pn q sa ca hbc hcn hii hpn hq hsa hca =>
    injection h with h
    subst h
    exact ⟨hq, hsa, hca⟩
  · exact absurd h (by simp)

/-- C10: for a row that passes validation, a mapped qty, saleAmount or
costAmount column with a blank (or absent) cell yields the extracted value ""
which `Number` coerces to 0: the field is stored as the number 0, not omitted,
and the blank cell causes no validation error. -/
theorem blank_numeric_cell_stored_as_zero (headers : List String) (r : List Cell)
    (d : CanonicalRow)
    (hparse : safeParse (extractRaw (buildHeaderMap headers).map r) = some d) :
    (∀ i, (buildHeaderMap headers).map.lookup "qty" = some i →
      jsTrim (cellAt r i).toStr = "" → d.qty = some JsNum.zero) ∧
    (∀ i, (buildHeaderMap headers).map.lookup "saleAmount" = some i →
      jsTrim (cellAt r i).toStr = "" → d.saleAmount = some JsNum.zero) ∧
    (∀ i, (buildHeaderMap headers).map.lookup "costAmount" = some i →
      jsTrim (cellAt r i).toStr = "" → d.costAmount = some JsNum.zero) := by
  obtain ⟨hq, hsa, hca⟩ := safeParse_num_fields _ _ hparse
  refine ⟨?_, ?_, ?_⟩ <;> intro i hl hb
  · have ho : (extractRaw (buildHeaderMap headers).map r).lookup "qty" = some "" := by
      simp [lookup_extractRaw, hl, hb]
    unfold optCoerceNum at hq
    rw [ho] at hq
    dsimp only at hq
    rw [show jsNumber "" = some JsNum.zero from by decide] at hq
    injection hq with hq
    exact hq.symm
  · have ho : (extractRaw (buildHeaderMap headers).map r).lookup "saleAmount" = some "" := by
      simp [lookup_extractRaw, hl, hb]
    unfold optCoerceNum at hsa
    rw [ho] at hsa
    dsimp only at hsa
    rw [show jsNumber "" = some JsNum.zero from by decide] at hsa
    injection hsa with hsa
    exact hsa.symm
  · have ho : (extractRaw (buildHeaderMap headers).map r).lookup "costAmount" = some "" := by
      simp [lookup_extractRaw, hl, hb]
    unfold optCoerceNum at hca
    rw [ho] at hca
    dsimp only at hca
    rw [show jsNumber "" = some JsNum.zero from by decide] at hca
    injection hca with hca
    exact hca.symm

/-- C10 witness: the whitespace-only qty cell of the demo sheet is stored as 0. -/
theorem blank_numeric_cell_stored_as_zero_witness :
    safeParse (extractRaw (buildHeaderMap (headersOf demoBlankQty)).map demoBlankQtyRow) =
      some (okParseOf (safeParse
        (extractRaw (buildHeaderMap (headersOf demoBlankQty)).map demoBlankQtyRow))) ∧
    (okParseOf (safeParse
      (extractRaw (buildHeaderMap (headersOf demoBlankQty)).map demoBlankQtyRow))).qty =
        some JsNum.zero :=
  ⟨by decide,
    (blank_numeric_cell_stored_as_zero (headersOf demoBlankQty) demoBlankQtyRow
      (okParseOf (safeParse
        (extractRaw (buildHeaderMap (headersOf demoBlankQty)).map demoBlankQtyRow)))
      (by decide)).1 4 (by decide) (by decide)⟩

/-- Looking up a key absent from the alias table finds nothing in the built map. -/
theorem lookup_filterMap_none (f : String × List String → Option Nat)
    (T : List (String × List String)) (k : String) (h : k ∉ T.map Prod.fst) :
    (T.filterMap (fun ca => (f ca).map (fun i => (ca.1, i)))).lookup k = none := by
  induction T with
  | nil => rfl
  | cons ca T ih =>
    simp only [List.map_cons, List.mem_cons, not_or] at h
    rw [List.filterMap_cons]
    cases hf : f ca with
    | none => exact ih h.2
    | some i =>
      have hne : (k == ca.1) = false := by simp [h.1]
      dsimp only [Option.map_some']
      rw [List.lookup, hne]
      exact ih h.2

/-- Looking a canonical field up in the built map evaluates the field's own
findIndex, provided the alias table's keys are distinct. -/
theorem lookup_alias_map (f : String × List String → Option Nat) :
    ∀ (L : List (String × List String)), (L.map Prod.fst).Nodup →
      ∀ (k : String) (al : List String), (k, al) ∈ L →
      (L.filterMap (fun ca => (f ca).map (fun i => (ca.1, i)))).lookup k = f (k, al) := by
  intro L
  induction L with
  | nil => intro _ k al h; cases h
  | cons ca T ih =>
    intro hnd k al hmem
    rw [List.map_cons, List.nodup_cons] at hnd
    rw [List.filterMap_cons]
    rcases List.mem_cons.mp hmem with heq | hT
    · subst heq
      cases hf : f (k, al) with
      | none => exact lookup_filterMap_none f T k hnd.1
      | some i =>
        dsimp only [Option.map_some']
        rw [List.lookup]
        simp
    · have hk : k ∈ T.map Prod.fst := List.mem_map_of_mem Prod.fst hT
      have hne : (k == ca.1) = false := by
        have hkne : k ≠ ca.1 := fun e => hnd.1 (e ▸ hk)
        simp [hkne]
      cases hf : f ca with
      | none => exact ih hnd.2 k al hT
      | some i =>
        dsimp only [Option.map_some']
        rw [List.lookup, hne]
        exact ih hnd.2 k al hT

/-- `findIndex` returns the first index satisfying the predicate. -/
theorem findIndex_eq_some_of_first (p : String → Bool) :
    ∀ (l : List String) (i : Nat), i < l.length → p (l.getD i "") = true →
      (∀ j, j < i → p (l.getD j "") = false) → findIndex p l = some i := by
  intro l
  induction l with
  | nil => intro i hi; exact absurd hi (by simp)
  | cons a t ih =>
    intro i hi hp hmin
    cases i with
    | zero =>
      unfold findIndex
      rw [show p a = true from hp]
      rfl
    | succ n =>
      unfold findIndex
      have ha : p a = false := by simpa using hmin 0 (Nat.succ_pos n)
      rw [ha]
      rw [ih n (by simpa using hi) (by simpa using hp)
        (fun j hj => by simpa using hmin (j + 1) (by omega))]
      rfl

/-- C7: when two or more headers' normalized forms match aliases of the same
canonical field, the field resolves to the lowest (leftmost) matching index;
later matches are ignored, and the result carries only the map, the unknown
headers and the normalized headers — no warning. -/
theorem first_match_wins (headers : List String) (k : String) (al : List String)
    (hmem : (k, al) ∈ headerAliases) (i : Nat) (hi : i < headers.length)
    (hmatch : (al.map normalizeHeader).contains
      ((headers.map normalizeHeader).getD i "") = true)
    (hfirst : ∀ j, j < i → (al.map normalizeHeader).contains
      ((headers.map normalizeHeader).getD j "") = false) :
    (buildHeaderMap headers).map.lookup k = some i := by
  have hnd : (headerAliases.map Prod.fst).Nodup := by decide
  unfold buildHeaderMap
  dsimp only
  rw [lookup_alias_map
    (fun ca => findIndex (fun h => (ca.2.map normalizeHeader).contains h)
      (headers.map normalizeHeader))
    headerAliases hnd k al hmem]
  exact findIndex_eq_some_of_first _ _ i (by simpa using hi) hmatch hfirst

/-- C7 witness: with both 廠別 and 據點 present (both branchCode aliases), the
leftmost column 0 wins. -/
theorem first_match_wins_witness :
    ("branchCode", ["據點", "廠別", "服務廠"]) ∈ headerAliases ∧
      (buildHeaderMap ["廠別", "據點"]).map.lookup "branchCode" = some 0 :=
  ⟨by decide,
    first_match_wins ["廠別", "據點"] "branchCode" ["據點", "廠別", "服務廠"] (by decide)
      0 (by decide) (by decide) (fun j hj => absurd hj (Nat.not_lt_zero j))⟩

/-- Characters with equal code points are equal. -/
theorem char_eq_of_toNat_eq (a b : Char) (h : a.toNat = b.toNat) : a = b :=
  Char.eq_of_val_eq (UInt32.eq_of_toBitVec_eq (BitVec.eq_of_toNat_eq h))

/-- The code-unit comparison is total. -/
theorem strLeChars_total : ∀ (l₁ l₂ : List Char),
    strLeChars l₁ l₂ = true ∨ strLeChars l₂ l₁ = true
  | [], _ => Or.inl rfl
  | _ :: _, [] => Or.inr rfl
  | a :: as, b :: bs => by
    by_cases hab : a = b
    · subst hab
      simp only [strLeChars, if_pos rfl]
      exact strLeChars_total as bs
    · have hnat : a.toNat ≠ b.toNat := fun e => hab (char_eq_of_toNat_eq a b e)
      simp only [strLeChars, if_neg hab, if_neg (Ne.symm hab)]
      rcases Nat.lt_or_ge a.toNat b.toNat with h | h
      · exact Or.inl (by simpa using h)
      · refine Or.inr ?_
        simp only [decide_eq_true_eq]
        omega

/-- The code-unit comparison is antisymmetric. -/
theorem strLeChars_antisymm : ∀ (l₁ l₂ : List Char),
    strLeChars l₁ l₂ = true → strLeChars l₂ l₁ = true → l₁ = l₂
  | [], [], _, _ => rfl
  | [], _ :: _, _, h₂ => by simp [strLeChars] at h₂
  | _ :: _, [], h₁, _ => by simp [strLeChars] at h₁
  | a :: as, b :: bs, h₁, h₂ => by
    by_cases hab : a = b
    · subst hab
      simp only [strLeChars, if_pos rfl] at h₁ h₂
      rw [strLeChars_antisymm as bs h₁ h₂]
    · rw [strLeChars, if_neg hab] at h₁
      rw [strLeChars, if_neg (Ne.symm hab)] at h₂
      simp only [decide_eq_true_eq] at h₁ h₂
      omega

/-- The code-unit comparison is transitive. -/
theorem strLeChars_trans : ∀ (l₁ l₂ l₃ : List Char),
    strLeChars l₁ l₂ = true → strLeChars l₂ l₃ = true → strLeChars l₁ l₃ = true
  | [], _, _, _, _ => rfl
  | _ :: _, [], _, h₁, _ => by simp [strLeChars] at h₁
  | _ :: _, _ :: _, [], _, h₂ => by simp [strLeChars] at h₂
  | a :: as, b :: bs, c :: cs, h₁, h₂ => by
    by_cases hab : a = b <;> by_cases hbc : b = c
    · subst hab; subst hbc
      simp only [strLeChars, if_pos rfl] at h₁ h₂ ⊢
      exact strLeChars_trans as bs cs h₁ h₂
    · subst hab
      rw [strLeChars, if_neg hbc] at h₂
      rw [strLeChars, if_neg hbc]
      exact h₂
    · subst hbc
      rw [strLeChars, if_neg hab] at h₁
      rw [strLeChars, if_neg hab]
      exact h₁
    · rw [strLeChars, if_neg hab] at h₁
      rw [strLeChars, if_neg hbc] at h₂
      simp only [decide_eq_true_eq] at h₁ h₂
      by_cases hac : a = c
      · have : a.toNat = c.toNat := congrArg Char.toNat hac
        omega
      · rw [strLeChars, if_neg hac]
        simp only [decide_eq_true_eq]
        omega

/-- JS string comparison is total. -/
theorem strLe_total (a b : String) : strLe a b = true ∨ strLe b a = true :=
  strLeChars_total a.toList b.toList

/-- JS string comparison is antisymmetric. -/
theorem strLe_antisymm (a b : String) (h₁ : strLe a b = true) (h₂ : strLe b a = true) :
    a = b :=
  String.ext (strLeChars_antisymm a.toList b.toList h₁ h₂)

/-- JS string comparison is transitive. -/
theorem strLe_trans (a b c : String) (h₁ : strLe a b = true) (h₂ : strLe b c = true) :
    strLe a c = true :=
  strLeChars_trans a.toList b.toList c.toList h₁ h₂

/-- Membership after inserting into the sort. -/
theorem mem_insertSorted (x : String) : ∀ (l : List String) (z : String),
    z ∈ insertSorted x l ↔ z = x ∨ z ∈ l := by
  intro l
  induction l with
  | nil => intro z; simp [insertSorted]
  | cons y ys ih =>
    intro z
    unfold insertSorted
    split
    · simp [List.mem_cons]
    · simp [List.mem_cons, ih]
      tauto

/-- Inserting into a sorted list keeps it sorted. -/
theorem sorted_insertSorted (x : String) : ∀ (l : List String),
    List.Sorted (fun a b => strLe a b = true) l →
    List.Sorted (fun a b => strLe a b = true) (insertSorted x l) := by
  intro l
  induction l with
  | nil => intro _; simp [insertSorted]
  | cons y ys ih =>
    intro h
    rw [List.sorted_cons] at h
    unfold insertSorted
    split
    · next hxy =>
      rw [List.sorted_cons]
      refine ⟨?_, ?_⟩
      · intro z hz
        rcases List.mem_cons.mp hz with rfl | hz
        · exact hxy
        · exact strLe_trans x y z hxy (h.1 z hz)
      · rw [List.sorted_cons]
        exact h
    · next hxy =>
      rw [List.sorted_cons]
      refine ⟨?_, ih h.2⟩
      intro z hz
      rcases (mem_insertSorted x ys z).mp hz with rfl | hz
      · rcases strLe_total z y with hx | hy
        · exact absurd hx hxy
        · exact hy
      · exact h.1 z hz

/-- Inserting is a permutation of consing. -/
theorem perm_insertSorted (x : String) : ∀ (l : List String),
    List.Perm (insertSorted x l) (x :: l) := by
  intro l
  induction l with
  | nil => exact List.Perm.refl _
  | cons y ys ih =>
    unfold insertSorted
    split
    · exact List.Perm.refl _
    · exact (List.Perm.cons y ih).trans (List.Perm.swap x y ys)

/-- The modelled sort permutes its input. -/
theorem perm_sortHeaders : ∀ (l : List String), List.Perm (sortHeaders l) l := by
  intro l
  induction l with
  | nil => exact List.Perm.refl _
  | cons x xs ih => exact (perm_insertSorted x (sortHeaders xs)).trans (List.Perm.cons x ih)

/-- The modelled sort sorts. -/
theorem sorted_sortHeaders : ∀ (l : List String),
    List.Sorted (fun a b => strLe a b = true) (sortHeaders l) := by
  intro l
  induction l with
  | nil => exact List.sorted_nil
  | cons x xs ih => exact sorted_insertSorted x (sortHeaders xs) ih

/-- Permuted inputs sort identically. -/
theorem sortHeaders_eq_of_perm (l₁ l₂ : List String) (h : List.Perm l₁ l₂) :
    sortHeaders l₁ = sortHeaders l₂ := by
  haveI : IsAntisymm String (fun a b => strLe a b = true) := ⟨strLe_antisymm⟩
  exact List.eq_of_perm_of_sorted
    (((perm_sortHeaders l₁).trans h).trans (perm_sortHeaders l₂).symm)
    (sorted_sortHeaders l₁) (sorted_sortHeaders l₂)

/-- C4: permuting the header columns leaves the computed header signature (hash
of the sorted serialized normalized headers) unchanged. -/
theorem header_signature_perm_invariant (headers₁ headers₂ : List String)
    (h : List.Perm headers₁ headers₂) :
    headerSignatureOf ((buildHeaderMap headers₁).normHeaders) =
      headerSignatureOf ((buildHeaderMap headers₂).normHeaders) := by
  have hn : List.Perm ((buildHeaderMap headers₁).normHeaders)
      ((buildHeaderMap headers₂).normHeaders) := h.map normalizeHeader
  unfold headerSignatureOf
  rw [sortHeaders_eq_of_perm _ _ hn]

/-- C4 witness: swapping two header columns preserves the signature. -/
theorem header_signature_perm_invariant_witness :
    List.Perm ["據點", "數量"] ["數量", "據點"] ∧
      headerSignatureOf ((buildHeaderMap ["據點", "數量"]).normHeaders) =
        headerSignatureOf ((buildHeaderMap ["數量", "據點"]).normHeaders) :=
  ⟨List.Perm.swap "數量" "據點" [],
    header_signature_perm_invariant ["據點", "數量"] ["數量", "據點"]
      (List.Perm.swap "數量" "據點" [])⟩

/-- Lookup of the key just written by a JS object assignment. -/
theorem objInsert_lookup_self : ∀ (l : List (String × Cell)) (k : String) (v : Cell),
    (objInsert l k v).lookup k = some v := by
  intro l
  induction l with
  | nil => intro k v; simp [objInsert, List.lookup]
  | cons p t ih =>
    intro k v
    obtain ⟨pk, pv⟩ := p
    unfold objInsert
    by_cases hp : (pk == k) = true
    · rw [if_pos (by simp [List.any_cons, hp])]
      rw [List.map_cons]
      dsimp only
      rw [if_pos hp, List.lookup]
      simp
    · rw [List.any_cons]
      dsimp only
      have hkp : (k == pk) = false := by
        have : pk ≠ k := by simpa using hp
        simp [Ne.symm this]
      by_cases ht : (t.any fun q => q.1 == k) = true
      · rw [if_pos (by simp [hp, ht])]
        rw [List.map_cons]
        dsimp only
        rw [if_neg hp, List.lookup, hkp]
        have := ih k v
        rw [objInsert, if_pos ht] at this
        exact this
      · rw [if_neg (by simp [hp, ht])]
        rw [List.cons_append, List.lookup, hkp]
        have := ih k v
        rw [objInsert, if_neg ht] at this
        exact this

/-- Replacing the bindings of key `k` leaves lookups of other keys unchanged. -/
theorem lookup_map_replace (t : List (String × Cell)) (k q : String) (v : Cell)
    (h : q ≠ k) :
    (t.map (fun p => if (p.1 == k) = true then (k, v) else p)).lookup q = t.lookup q := by
  induction t with
  | nil => rfl
  | cons p t ih =>
    obtain ⟨pk, pv⟩ := p
    rw [List.map_cons]
    dsimp only
    by_cases hp : (pk == k) = true
    · have hpk : pk = k := by simpa using hp
      rw [if_pos hp, List.lookup, List.lookup,
        show (q == k) = false from by simp [h],
        show (q == pk) = false from by simp [hpk ▸ h]]
      exact ih
    · rw [if_neg hp, List.lookup, List.lookup]
      cases hq : (q == pk)
      · exact ih
      · rfl

/-- Appending a binding for key `k` leaves lookups of other keys unchanged. -/
theorem lookup_append_other (l : List (String × Cell)) (k q : String) (v : Cell)
    (h : q ≠ k) : (l ++ [(k, v)]).lookup q = l.lookup q := by
  induction l with
  | nil =>
    rw [List.nil_append]
    simp only [List.lookup]
    rw [show (q == k) = false from by simp [h]]
  | cons p t ih =>
    obtain ⟨pk, pv⟩ := p
    rw [List.cons_append, List.lookup, List.lookup]
    cases hq : (q == pk)
    · exact ih
    · rfl

/-- A JS object assignment leaves the other keys' bindings unchanged. -/
theorem objInsert_lookup_other (l : List (String × Cell)) (k q : String) (v : Cell)
    (h : q ≠ k) : (objInsert l k v).lookup q = l.lookup q := by
  unfold objInsert
  split
  · exact lookup_map_replace l k q v h
  · exact lookup_append_other l k q v h

/-- A forEach step that cannot write header `h` leaves `h`'s binding unchanged. -/
theorem unknownStep_lookup_preserve (unk : List String) (r : List Cell) (h : String)
    (acc : List (String × Cell)) (p : Nat × String)
    (hp : p.2 = h → jsTrim (cellAt r p.1).toStr = "") :
    (unknownStep unk r acc p).lookup h = acc.lookup h := by
  unfold unknownStep
  split
  · dsimp only
    split
    · rfl
    · next hnb =>
      apply objInsert_lookup_other
      intro he
      apply hnb
      rw [← he] at hp
      simp [hp rfl]
  · rfl

/-- A run of forEach steps none of which can write header `h` preserves it. -/
theorem unknownFold_lookup_preserve (unk : List String) (r : List Cell) (h : String) :
    ∀ (l : List (Nat × String)) (acc : List (String × Cell)),
      (∀ p ∈ l, p.2 = h → jsTrim (cellAt r p.1).toStr = "") →
      (l.foldl (unknownStep unk r) acc).lookup h = acc.lookup h := by
  intro l
  induction l with
  | nil => intro acc _; rfl
  | cons p t ih =>
    intro acc hall
    rw [List.foldl_cons]
    rw [ih _ (fun q hq => hall q (List.mem_cons_of_mem p hq))]
    exact unknownStep_lookup_preserve unk r h acc p (hall p (List.mem_cons_self p t))

/-- After the column at `idx` (headed `h`, unknown, non-blank) is processed and
every later column headed `h` is blank, the mapping holds that very cell. -/
theorem unknownFold_lookup_last (unk : List String) (r : List Cell) (h : String)
    (idx : Nat) (l₁ l₂ : List (Nat × String)) (acc : List (String × Cell))
    (hc : unk.contains h = true) (hnb : jsTrim (cellAt r idx).toStr ≠ "")
    (hl₂ : ∀ p ∈ l₂, p.2 = h → jsTrim (cellAt r p.1).toStr = "") :
    ((l₁ ++ (idx, h) :: l₂).foldl (unknownStep unk r) acc).lookup h =
      some (cellAt r idx) := by
  rw [List.foldl_append, List.foldl_cons]
  rw [unknownFold_lookup_preserve unk r h l₂ _ hl₂]
  unfold unknownStep
  dsimp only
  rw [if_pos hc]
  rw [if_neg (by simp [hnb])]
  exact objInsert_lookup_self _ h _

/-- Splitting an enumeration at a position inside the list. -/
theorem enumFrom_split : ∀ (l : List String) (n i : Nat), i < l.length →
    List.enumFrom n l = List.enumFrom n (l.take i) ++
      (n + i, l.getD i "") :: List.enumFrom (n + i + 1) (l.drop (i + 1)) := by
  intro l
  induction l with
  | nil => intro n i hi; exact absurd hi (by simp)
  | cons a t ih =>
    intro n i hi
    cases i with
    | zero => simp [List.enumFrom]
    | succ m =>
      have hm : m < t.length := by simpa using hi
      have heq := ih (n + 1) m hm
      simp only [List.enumFrom, List.take_succ_cons, List.drop_succ_cons, List.getD_cons_succ,
        List.cons_append]
      rw [heq]
      have e1 : n + 1 + m = n + (m + 1) := by omega
      rw [e1]

/-- What membership in an enumeration says about index and element. -/
theorem mem_enumFrom_spec : ∀ (l : List String) (n : Nat) (p : Nat × String),
    p ∈ List.enumFrom n l → n ≤ p.1 ∧ p.1 - n < l.length ∧ l.getD (p.1 - n) "" = p.2 := by
  intro l
  induction l with
  | nil => intro n p hp; cases hp
  | cons a t ih =>
    intro n p hp
    rw [List.enumFrom] at hp
    rcases List.mem_cons.mp hp with rfl | hp
    · simp
    · obtain ⟨h1, h2, h3⟩ := ih (n + 1) p hp
      refine ⟨by omega, by simp; omega, ?_⟩
      have e : p.1 - n = (p.1 - (n + 1)) + 1 := by omega
      rw [e, List.getD_cons_succ]
      exact h3

/-- `getD` of a dropped list, re-indexed. -/
theorem getD_drop_str : ∀ (l : List String) (m j : Nat),
    (l.drop m).getD j "" = l.getD (m + j) "" := by
  intro l
  induction l with
  | nil => intro m j; simp
  | cons a t ih =>
    intro m j
    cases m with
    | zero => simp
    | succ m =>
      rw [List.drop_succ_cons, ih m j]
      have e : m + 1 + j = (m + j) + 1 := by omega
      rw [e, List.getD_cons_succ]

/-- An in-range `getD` is a member. -/
theorem getD_mem_of_lt : ∀ (l : List Cell) (i : Nat), i < l.length →
    l.getD i (Cell.str "") ∈ l := by
  intro l
  induction l with
  | nil => intro i hi; exact absurd hi (by simp)
  | cons a t ih =>
    intro i hi
    cases i with
    | zero => simp
    | succ m =>
      rw [List.getD_cons_succ]
      exact List.mem_cons_of_mem a (ih m (by simpa using hi))

/-- A row holding one non-blank cell is not blank. -/
theorem row_nonblank_of_cell (r : List Cell) (idx : Nat)
    (hnb : jsTrim (cellAt r idx).toStr ≠ "") : rowIsBlank r = false := by
  by_cases hlen : idx < r.length
  · cases hall : r.all (fun v => jsTrim v.toStr == "") with
    | false => exact hall
    | true =>
      have hmem : cellAt r idx ∈ r := getD_mem_of_lt r idx hlen
      have := List.all_eq_true.mp hall _ hmem
      exact absurd (by simpa using this) hnb
  · exfalso
    apply hnb
    unfold cellAt
    rw [List.getD_eq_default _ _ (by omega)]
    rfl

/-- A non-blank row's staging append, independent of the validation outcome. -/
theorem stepRow_staging_of_nonblank (cfg : RowConfig) (st : ImportState) (i : Nat)
    (r : List Cell) (hbl : rowIsBlank r = false) :
    (stepRow cfg st (i, r)).staging = st.staging ++ [stagingRowOf cfg i r] := by
  unfold stepRow
  rw [if_neg (by simp [hbl])]
  dsimp only
  split
  · rfl
  · split <;> rfl

/-- C2 counterexample: with two unknown columns both headed X and non-blank cells
a and b, the batch records both unknown columns, yet the staged row's unknown
mapping retains only the later cell — the non-blank unknown cell a of column 0
is kept nowhere, refuting verbatim retention for duplicated unknown headers. -/
theorem unknown_dup_header_cell_lost :
    (okResultOf (importPartsSalesXlsx none demoDup)).unknownColumns = ["X", "X"] ∧
      jsTrim (Cell.str "a").toStr ≠ "" ∧
      (okResultOf (importPartsSalesXlsx none demoDup)).staging =
        [⟨1, [], some [("X", Cell.str "b")]⟩] ∧
      (∀ sr ∈ (okResultOf (importPartsSalesXlsx none demoDup)).staging,
        ("X", Cell.str "a") ∉ sr.unknown.getD []) := by
  refine ⟨by decide, by decide, by decide, by decide⟩

/-- C2 amended: every non-blank cell of an unknown column is retained verbatim
(original uncoerced cell value) in the staging row's unknown mapping under its
original header text, provided no later column carries the same header text
with a non-blank cell; when several unknown columns share a header text, only
the rightmost non-blank cell among them is kept. -/
theorem unknown_cell_retained (cfg : RowConfig) (st : ImportState) (i idx : Nat)
    (r : List Cell) (h : String)
    (hidx : idx < cfg.headers.length) (hh : cfg.headers.getD idx "" = h)
    (hunk : cfg.unknown.contains h = true)
    (hnb : jsTrim (cellAt r idx).toStr ≠ "")
    (hlast : ∀ j, idx < j → j < cfg.headers.length → cfg.headers.getD j "" = h →
      jsTrim (cellAt r j).toStr = "") :
    (buildUnknownObj cfg.headers cfg.unknown r).lookup h = some (cellAt r idx) ∧
      (stepRow cfg st (i, r)).staging =
        st.staging ++ [⟨i, extractRaw cfg.map r,
          some (buildUnknownObj cfg.headers cfg.unknown r)⟩] := by
  have hlook : (buildUnknownObj cfg.headers cfg.unknown r).lookup h =
      some (cellAt r idx) := by
    unfold buildUnknownObj
    rw [enumFrom_split cfg.headers 0 idx hidx]
    rw [show (0 + idx, cfg.headers.getD idx "") = (idx, h) from by rw [hh, Nat.zero_add]]
    apply unknownFold_lookup_last cfg.unknown r h idx _ _ _ hunk hnb
    intro p hp hph
    obtain ⟨h1, h2, h3⟩ := mem_enumFrom_spec _ _ p hp
    rw [getD_drop_str] at h3
    apply hlast p.1 (by omega)
    · have hdl : (cfg.headers.drop (idx + 1)).length = cfg.headers.length - (idx + 1) := by
        simp
      omega
    · rw [← hph, ← h3]
      congr 1
      omega
  have hrnb : rowIsBlank r = false := row_nonblank_of_cell r idx hnb
  have hne : (buildUnknownObj cfg.headers cfg.unknown r).isEmpty = false := by
    cases hu : buildUnknownObj cfg.headers cfg.unknown r with
    | nil => rw [hu] at hlook; cases hlook
    | cons a t => rfl
  refine ⟨hlook, ?_⟩
  rw [stepRow_staging_of_nonblank cfg st i r hrnb]
  simp [stagingRowOf, hne]

/-- C2 amended witness: in the duplicate-header sheet, column 1 (the rightmost
non-blank X column) is retained verbatim. -/
theorem unknown_cell_retained_witness :
    (rowConfigOf (headersOf demoDup)).unknown.contains "X" = true ∧
      (buildUnknownObj (rowConfigOf (headersOf demoDup)).headers
        (rowConfigOf (headersOf demoDup)).unknown [Cell.str "a", Cell.str "b"]).lookup "X" =
        some (cellAt [Cell.str "a", Cell.str "b"] 1) :=
  ⟨by decide, by
    have hlen : (rowConfigOf (headersOf demoDup)).headers.length = 2 := by decide
    exact (unknown_cell_retained (rowConfigOf (headersOf demoDup)) ⟨[], [], 0, 0, 0⟩ 1 1
      [Cell.str "a", Cell.str "b"] "X" (by decide) (by decide) (by decide) (by decide)
      (fun j h1 h2 _ => absurd (hlen ▸ h2) (by omega))).1⟩

end Theorems

end DMS
